import Mathlib

/-!
Verification of the PPE detection system core against its specification.

The Python sources are shallowly embedded: Python floats are modelled by
exact rationals (ℚ), Python dicts by association lists, Python sets by
duplicate-free lists, and mutating methods by state-passing functions.
`np.sqrt` is modelled by `ratSqrt`, which agrees with the exact square root
on every rational that is a square of a rational (all concrete inputs used
here); float rounding is out of scope of this embedding.
-/

namespace PPE

/-- Python `int()` truncation (toward zero) of a rational. -/
def pyInt (q : ℚ) : ℤ := q.num.tdiv (q.den : ℤ)

/-- Newton iteration for the integer square root, with explicit fuel
(the guess strictly decreases, so fuel `n` always suffices). -/
def isqrtIter : Nat → Nat → Nat → Nat
  | 0, _, guess => guess
  | fuel + 1, n, guess =>
      let next := (guess + n / guess) / 2
      if next < guess then isqrtIter fuel n next else guess

/-- Integer square root (same Newton scheme as `Nat.sqrt`, made
fuel-structural so that it evaluates by kernel reduction). -/
def isqrt (n : Nat) : Nat := isqrtIter n n n

/-- Model of `np.sqrt` on rationals: exact whenever the argument is the
square of a rational (in lowest terms `a^2 / b^2`, `num * den = (a*b)^2`),
a floor-style approximation otherwise. -/
def ratSqrt (q : ℚ) : ℚ :=
  if q ≤ 0 then 0 else (isqrt (q.num.toNat * q.den) : ℚ) / (q.den : ℚ)

/-- The last `n` elements of a list: the contents of a `collections.deque`
with `maxlen = n` after appending the whole list in order. -/
def lastN (n : Nat) (l : List α) : List α := l.drop (l.length - n)

/-- Python values flowing through the pipeline's dict-shaped records. -/
inductive PyVal where
  | pnone
  | b (x : Bool)
  | q (x : ℚ)
  | s (x : String)
  | arr (xs : List PyVal)
  | dict (xs : List (String × PyVal))

/-- A Python dict with string keys (association list in insertion order). -/
abbrev PyDict := List (String × PyVal)

/-- Lookup of a string key in a dict. -/
def pdFind : PyDict → String → Option PyVal
  | [], _ => none
  | (k', v') :: rest, k => if k = k' then some v' else pdFind rest k

/-- Python `d.get(k, default)`. -/
def dictGet (d : PyDict) (k : String) (dflt : PyVal) : PyVal :=
  match pdFind d k with
  | some v => v
  | none => dflt

/-- Python `d[k] = v`: replace in place if the key exists, append otherwise. -/
def dictSet : PyDict → String → PyVal → PyDict
  | [], k, v => [(k, v)]
  | (k', v') :: rest, k, v =>
      if k' = k then (k, v) :: rest else (k', v') :: dictSet rest k v

/-- Read a Bool-valued entry (missing or differently-typed keys give `false`,
matching the call sites, which always pass default `False`). -/
def dictGetBool (d : PyDict) (k : String) : Bool :=
  match pdFind d k with
  | some (.b x) => x
  | _ => false

/-- Read a rational-valued entry (`0` when absent). -/
def dictGetQ (d : PyDict) (k : String) : ℚ :=
  match pdFind d k with
  | some (.q x) => x
  | _ => 0

/-- Python truthiness of a value. -/
def PyVal.truthy : PyVal → Bool
  | .pnone => false
  | .b x => x
  | .q x => decide (x ≠ 0)
  | .s x => decide (x ≠ "")
  | .arr xs => !xs.isEmpty
  | .dict xs => !xs.isEmpty

/-! ### Association lists keyed by integer person/track ids
(model of the Python dicts `person_buffers` and `person_status`). -/

/-- `d[k]` on an id-keyed dict (`none` when absent). -/
def assocGet {α : Type} : List (Nat × α) → Nat → Option α
  | [], _ => none
  | (k', v') :: rest, k => if k = k' then some v' else assocGet rest k

/-- `d[k] = v` on an id-keyed dict. -/
def assocSet {α : Type} : List (Nat × α) → Nat → α → List (Nat × α)
  | [], k, v => [(k, v)]
  | (k', v') :: rest, k, v =>
      if k' = k then (k, v) :: rest else (k', v') :: assocSet rest k v

/-- `del d[k]` on an id-keyed dict (no-op when the key is absent, matching
the guarded deletes in the source). -/
def assocRemove {α : Type} (d : List (Nat × α)) (k : Nat) : List (Nat × α) :=
  d.filter (fun e => e.1 ≠ k)

/-! ## TemporalFilter (src/core/temporal_filter.py) -/

/-- One buffered compliance observation. -/
structure Obs where
  compliant : Bool
  detected_ppe : List String
  missing_ppe : List String
deriving DecidableEq

/-- State of `TemporalFilter`. -/
structure TemporalFilter where
  buffer_size : Nat
  violation_threshold : ℚ
  person_buffers : List (Nat × List Obs)
  person_status : List (Nat × PyDict)

/-- `TemporalFilter(buffer_size, violation_threshold)`. -/
def mkTemporalFilter (buffer_size : Nat) (violation_threshold : ℚ) : TemporalFilter :=
  { buffer_size := buffer_size
    violation_threshold := violation_threshold
    person_buffers := []
    person_status := [] }

/-- Count of occurrences (`Counter` count of one key). -/
def countOccur (x : String) (l : List String) : Nat := (l.filter (fun y => y = x)).length

/-- Keys of a `Counter` built from `l`: unique items in first-occurrence order. -/
def firstUniquesAux : List String → List String → List String
  | [], _ => []
  | x :: xs, seen =>
      if x ∈ seen then firstUniquesAux xs seen else x :: firstUniquesAux xs (x :: seen)

def firstUniques (l : List String) : List String := firstUniquesAux l []

/-- Stable insertion keeping earlier elements first on ties. -/
def insertDesc (key : String → Nat) (x : String) : List String → List String
  | [] => [x]
  | y :: ys => if key y < key x then x :: y :: ys else y :: insertDesc key x ys

/-- Stable sort, descending by `key` (ties keep list order). -/
def sortDescBy (key : String → Nat) (l : List String) : List String :=
  l.foldr (insertDesc key) []

/-- `TemporalFilter._most_common`: items sorted by frequency (descending,
ties in first-occurrence order, the order `Counter.most_common` yields),
truncated to `top_n`. -/
def mostCommon (items : List String) (top_n : Nat) : List String :=
  if items = [] then []
  else (sortDescBy (fun x => countOccur x items) (firstUniques items)).take top_n

/-- `TemporalFilter.update`: appends the observation to the person's buffer
and recomputes the filtered status dict. Returns (returned status dict,
state after the call). -/
def TemporalFilter.update (tf : TemporalFilter) (person_id : Nat)
    (is_compliant : Bool) (detected_ppe missing_ppe : List String) :
    PyDict × TemporalFilter :=
  let old := (assocGet tf.person_buffers person_id).getD []
  let buffer := lastN tf.buffer_size
    (old ++ [{ compliant := is_compliant
               detected_ppe := detected_ppe
               missing_ppe := missing_ppe }])
  let buffers' := assocSet tf.person_buffers person_id buffer
  if buffer.length = 0 then
    ([("is_violation", .b false), ("confidence", .q 0),
      ("detected_ppe", .arr []), ("missing_ppe", .arr []),
      ("violation_ratio", .q 0)],
     { tf with person_buffers := buffers' })
  else
    let violation_count : Nat := (buffer.filter (fun o => !o.compliant)).length
    let violation_ratio : ℚ := (violation_count : ℚ) / (buffer.length : ℚ)
    let is_violation : Bool := decide (tf.violation_threshold ≤ violation_ratio)
    let buffer_fullness : ℚ := (buffer.length : ℚ) / (tf.buffer_size : ℚ)
    let confidence : ℚ := buffer_fullness * |violation_ratio - 1/2| * 2
    let recent := lastN 10 buffer
    let all_detected := recent.foldl (fun acc o => acc ++ o.detected_ppe) []
    let all_missing := recent.foldl (fun acc o => acc ++ o.missing_ppe) []
    let status : PyDict :=
      [("is_violation", .b is_violation), ("confidence", .q confidence),
       ("detected_ppe", .arr ((mostCommon all_detected 10).map .s)),
       ("missing_ppe", .arr ((mostCommon all_missing 10).map .s)),
       ("violation_ratio", .q violation_ratio)]
    (status,
     { tf with person_buffers := buffers'
               person_status := assocSet tf.person_status person_id status })

/-- `TemporalFilter.get_status`. -/
def TemporalFilter.get_status (tf : TemporalFilter) (person_id : Nat) : Option PyDict :=
  assocGet tf.person_status person_id

/-- `TemporalFilter.remove_person`. -/
def TemporalFilter.remove_person (tf : TemporalFilter) (person_id : Nat) : TemporalFilter :=
  { tf with person_buffers := assocRemove tf.person_buffers person_id
            person_status := assocRemove tf.person_status person_id }

/-- `TemporalFilter.cleanup_old_tracks`: iterate over a snapshot of the
buffer keys, removing every id not listed as active. -/
def TemporalFilter.cleanup_old_tracks (tf : TemporalFilter) (active : List Nat) :
    TemporalFilter :=
  (tf.person_buffers.map (fun e => e.1)).foldl
    (fun acc pid => if pid ∈ active then acc else acc.remove_person pid) tf

/-- `TemporalFilter.set_violation_threshold`: returns the state after the
call together with the raised `ValueError` message, if any (a raise leaves
the object untouched, which the returned state makes explicit). -/
def TemporalFilter.set_violation_threshold (tf : TemporalFilter) (threshold : ℚ) :
    TemporalFilter × Option String :=
  if 0 ≤ threshold ∧ threshold ≤ 1 then
    ({ tf with violation_threshold := threshold }, none)
  else
    (tf, some "Threshold must be between 0 and 1")

/-! ### Association list lemmas -/

theorem assocGet_assocSet_self {α : Type} (d : List (Nat × α)) (k : Nat) (v : α) :
    assocGet (assocSet d k v) k = some v := by
  induction d with
  | nil => simp [assocSet, assocGet]
  | cons e rest ih =>
      obtain ⟨k', v'⟩ := e
      by_cases h : k' = k
      · subst h
        simp [assocSet, assocGet]
      · simp [assocSet, h, assocGet, Ne.symm h, ih]

theorem assocGet_assocSet_ne {α : Type} (d : List (Nat × α)) (k x : Nat) (v : α)
    (hx : x ≠ k) : assocGet (assocSet d k v) x = assocGet d x := by
  induction d with
  | nil => simp [assocSet, assocGet, hx]
  | cons e rest ih =>
      obtain ⟨k', v'⟩ := e
      by_cases h : k' = k
      · subst h
        simp [assocSet, assocGet, hx]
      · by_cases h2 : x = k'
        · subst h2
          simp [assocSet, h, assocGet]
        · simp [assocSet, h, assocGet, h2, ih]

theorem assocGet_assocRemove {α : Type} (d : List (Nat × α)) (k x : Nat) :
    assocGet (assocRemove d k) x = if x = k then none else assocGet d x := by
  induction d with
  | nil => simp [assocRemove, assocGet]
  | cons e rest ih =>
      obtain ⟨k', v'⟩ := e
      by_cases h : k' = k
      · subst h
        by_cases h2 : x = k'
        · subst h2
          simpa [assocRemove, assocGet] using ih
        · simpa [assocRemove, assocGet, h2] using ih
      · by_cases h2 : x = k'
        · subst h2
          simp [assocRemove, assocGet, h, Ne.symm h]
        · simpa [assocRemove, assocGet, h, h2] using ih

theorem assocGet_eq_none_of_not_mem {α : Type} (d : List (Nat × α)) (x : Nat)
    (h : x ∉ d.map (fun e => e.1)) : assocGet d x = none := by
  induction d with
  | nil => simp [assocGet]
  | cons e rest ih =>
      obtain ⟨k', v'⟩ := e
      simp only [List.map_cons, List.mem_cons] at h
      push_neg at h
      simp [assocGet, h.1, ih h.2]

theorem mem_keys_of_assocGet_isSome {α : Type} (d : List (Nat × α)) (x : Nat)
    (h : (assocGet d x).isSome) : x ∈ d.map (fun e => e.1) := by
  by_contra hx
  rw [assocGet_eq_none_of_not_mem d x hx] at h
  simp at h

/-! ### TemporalFilter lemmas -/

/-- Both branches of `update` store the same new buffer. -/
theorem TemporalFilter.update_person_buffers (tf : TemporalFilter) (person_id : Nat)
    (c : Bool) (dp mp : List String) :
    (tf.update person_id c dp mp).2.person_buffers
      = assocSet tf.person_buffers person_id
          (lastN tf.buffer_size
            ((assocGet tf.person_buffers person_id).getD []
              ++ [{ compliant := c, detected_ppe := dp, missing_ppe := mp }])) := by
  unfold TemporalFilter.update
  dsimp only
  split <;> rfl

/-- Effect of the cleanup fold on lookups: a key is erased exactly when it
occurs in the iterated key snapshot and is not active. -/
theorem cleanup_foldl_lookup (active : List Nat) :
    ∀ (ks : List Nat) (tf : TemporalFilter) (x : Nat),
      (assocGet (ks.foldl (fun acc pid => if pid ∈ active then acc else acc.remove_person pid)
          tf).person_buffers x
        = if x ∈ ks ∧ x ∉ active then none else assocGet tf.person_buffers x)
      ∧ (assocGet (ks.foldl (fun acc pid => if pid ∈ active then acc else acc.remove_person pid)
          tf).person_status x
        = if x ∈ ks ∧ x ∉ active then none else assocGet tf.person_status x)
  | [], tf, x => by simp
  | k :: ks, tf, x => by
      simp only [List.foldl_cons]
      by_cases hk : k ∈ active
      · rw [if_pos hk]
        have ih := cleanup_foldl_lookup active ks tf x
        refine ⟨ih.1.trans ?_, ih.2.trans ?_⟩ <;>
        · by_cases hx : x ∈ ks ∧ x ∉ active
          · rw [if_pos hx, if_pos ⟨List.mem_cons_of_mem _ hx.1, hx.2⟩]
          · rw [if_neg hx]
            by_cases hxa : x ∈ active
            · rw [if_neg (by intro h; exact h.2 hxa)]
            · have hxk : x ≠ k := by
                intro h
                exact hxa (h ▸ hk)
              have hnot : ¬(x ∈ k :: ks ∧ x ∉ active) := by
                intro h
                rcases List.mem_cons.mp h.1 with h1 | h1
                · exact hxk h1
                · exact hx ⟨h1, h.2⟩
              rw [if_neg hnot]
      · rw [if_neg hk]
        have ih := cleanup_foldl_lookup active ks (tf.remove_person k) x
        have hb : assocGet (tf.remove_person k).person_buffers x
            = if x = k then none else assocGet tf.person_buffers x :=
          assocGet_assocRemove _ _ _
        have hs : assocGet (tf.remove_person k).person_status x
            = if x = k then none else assocGet tf.person_status x :=
          assocGet_assocRemove _ _ _
        refine ⟨ih.1.trans ?_, ih.2.trans ?_⟩ <;> [rw [hb]; rw [hs]] <;>
        · by_cases hx : x ∈ ks ∧ x ∉ active
          · rw [if_pos hx, if_pos ⟨List.mem_cons_of_mem _ hx.1, hx.2⟩]
          · rw [if_neg hx]
            by_cases hxk : x = k
            · subst hxk
              rw [if_pos rfl, if_pos ⟨List.mem_cons_self _ _, hk⟩]
            · rw [if_neg hxk]
              have hnot : ¬(x ∈ k :: ks ∧ x ∉ active) := by
                intro h
                rcases List.mem_cons.mp h.1 with h1 | h1
                · exact hxk h1
                · exact hx ⟨h1, h.2⟩
              rw [if_neg hnot]

/-- `lastN` of a singleton with positive capacity. -/
theorem lastN_singleton {α : Type} (n : Nat) (h : 1 ≤ n) (a : α) : lastN n [a] = [a] := by
  unfold lastN
  simp [Nat.sub_eq_zero_of_le h]

/-- Ten consecutive non-compliant `update` calls for person 1 on a fresh
`TemporalFilter(buffer_size=10, violation_threshold=0.7)`; the value is
(status returned by the n-th call, filter state after it). -/
def tfRunNonCompliant : Nat → PyDict × TemporalFilter
  | 0 => ([], mkTemporalFilter 10 (7/10))
  | n + 1 => (tfRunNonCompliant n).2.update 1 false [] ["helmet", "vest"]

unseal Rat.mul Rat.inv Rat.add Rat.sub in
/-- C1: with `buffer_size=10, violation_threshold=0.7`, the 10th consecutive
non-compliant `update` returns `is_violation=True, violation_ratio=1.0` —
but a SINGLE non-compliant observation in an otherwise-empty buffer already
returns `is_violation=True` with `violation_ratio=1.0` (the ratio is taken
over the current buffer length, 1/1), contradicting the claim's (and the
repository's own test's) expected `False`. -/
theorem temporal_filter_hysteresis_code_eval :
    (dictGetBool (tfRunNonCompliant 10).1 "is_violation" = true
      ∧ dictGetQ (tfRunNonCompliant 10).1 "violation_ratio" = 1)
    ∧ dictGetBool (tfRunNonCompliant 1).1 "is_violation" = true
    ∧ dictGetQ (tfRunNonCompliant 1).1 "violation_ratio" = 1 := by
  decide

/-- C7: `set_violation_threshold` errors exactly when the threshold lies
outside [0,1]; on the error path the whole state is unchanged, on the
success path only `violation_threshold` changes, to the given value. -/
theorem set_violation_threshold_spec (tf : TemporalFilter) (t : ℚ) :
    ((tf.set_violation_threshold t).2.isSome ↔ (t < 0 ∨ 1 < t))
    ∧ ((t < 0 ∨ 1 < t) → (tf.set_violation_threshold t).1 = tf)
    ∧ (0 ≤ t → t ≤ 1 →
        (tf.set_violation_threshold t).1.violation_threshold = t
        ∧ (tf.set_violation_threshold t).2 = none
        ∧ (tf.set_violation_threshold t).1.buffer_size = tf.buffer_size
        ∧ (tf.set_violation_threshold t).1.person_buffers = tf.person_buffers
        ∧ (tf.set_violation_threshold t).1.person_status = tf.person_status) := by
  unfold TemporalFilter.set_violation_threshold
  by_cases h : 0 ≤ t ∧ t ≤ 1
  · rw [if_pos h]
    refine ⟨?_, ?_, ?_⟩
    · constructor
      · intro hs
        simp at hs
      · rintro (h1 | h1)
        · exact absurd h.1 (not_le.mpr h1)
        · exact absurd h.2 (not_le.mpr h1)
    · rintro (h1 | h1)
      · exact absurd h.1 (not_le.mpr h1)
      · exact absurd h.2 (not_le.mpr h1)
    · intro _ _
      exact ⟨rfl, rfl, rfl, rfl, rfl⟩
  · rw [if_neg h]
    refine ⟨?_, fun _ => rfl, ?_⟩
    · simp only [Option.isSome_some, true_iff]
      rcases not_and_or.mp h with h1 | h1
      · exact Or.inl (not_le.mp h1)
      · exact Or.inr (not_le.mp h1)
    · intro h0 h1
      exact absurd ⟨h0, h1⟩ h

/-- Witness for C7 at threshold 3/2 (rejected, state kept) and 1/2 (stored). -/
theorem set_violation_threshold_spec_witness :
    ((mkTemporalFilter 30 (7/10)).set_violation_threshold (3/2)).1 = mkTemporalFilter 30 (7/10)
    ∧ ((mkTemporalFilter 30 (7/10)).set_violation_threshold (3/2)).2.isSome
    ∧ ((mkTemporalFilter 30 (7/10)).set_violation_threshold (1/2)).1.violation_threshold = 1/2 := by
  refine ⟨(set_violation_threshold_spec _ _).2.1 (Or.inr (by norm_num)),
    ((set_violation_threshold_spec (mkTemporalFilter 30 (7/10)) (3/2)).1).mpr
      (Or.inr (by norm_num)),
    ((set_violation_threshold_spec _ _).2.2 (by norm_num) (by norm_num)).1⟩

/-- C8: `cleanup_old_tracks` removes exactly the buffer/status entries whose
id is not active (on states where every status key has a buffer, which the
pipeline maintains); after `cleanup_old_tracks([])` every `get_status` is
`none` and a subsequent `update` starts from an empty buffer, leaving a
one-element buffer. -/
theorem cleanup_old_tracks_spec (tf : TemporalFilter) (act : List Nat)
    (hinv : ∀ pid, (assocGet tf.person_status pid).isSome →
      (assocGet tf.person_buffers pid).isSome) :
    (∀ pid, assocGet (tf.cleanup_old_tracks act).person_buffers pid
        = if pid ∈ act then assocGet tf.person_buffers pid else none)
    ∧ (∀ pid, assocGet (tf.cleanup_old_tracks act).person_status pid
        = if pid ∈ act then assocGet tf.person_status pid else none)
    ∧ (∀ pid, (tf.cleanup_old_tracks []).get_status pid = none)
    ∧ (1 ≤ tf.buffer_size → ∀ pid c dp mp,
        assocGet ((tf.cleanup_old_tracks []).update pid c dp mp).2.person_buffers pid
          = some [{ compliant := c, detected_ppe := dp, missing_ppe := mp }]) := by
  have keyfact : ∀ (a : List Nat) (pid : Nat),
      (assocGet (tf.cleanup_old_tracks a).person_buffers pid
        = if pid ∈ a then assocGet tf.person_buffers pid else none)
      ∧ (assocGet (tf.cleanup_old_tracks a).person_status pid
        = if pid ∈ a then assocGet tf.person_status pid else none) := by
    intro a pid
    have h := cleanup_foldl_lookup a (tf.person_buffers.map (fun e => e.1)) tf pid
    constructor
    · refine h.1.trans ?_
      by_cases ha : pid ∈ a
      · rw [if_pos ha, if_neg (by intro hc; exact hc.2 ha)]
      · rw [if_neg ha]
        by_cases hks : pid ∈ tf.person_buffers.map (fun e => e.1)
        · rw [if_pos ⟨hks, ha⟩]
        · rw [if_neg (by intro hc; exact hks hc.1)]
          exact assocGet_eq_none_of_not_mem _ _ hks
    · refine h.2.trans ?_
      by_cases ha : pid ∈ a
      · rw [if_pos ha, if_neg (by intro hc; exact hc.2 ha)]
      · rw [if_neg ha]
        by_cases hks : pid ∈ tf.person_buffers.map (fun e => e.1)
        · rw [if_pos ⟨hks, ha⟩]
        · rw [if_neg (by intro hc; exact hks hc.1)]
          by_cases hst : (assocGet tf.person_status pid).isSome
          · exact absurd (mem_keys_of_assocGet_isSome _ _ (hinv pid hst)) hks
          · exact Option.not_isSome_iff_eq_none.mp hst
  refine ⟨fun pid => (keyfact act pid).1, fun pid => (keyfact act pid).2, ?_, ?_⟩
  · intro pid
    have h := (keyfact [] pid).2
    simpa [TemporalFilter.get_status] using h
  · intro hbs pid c dp mp
    rw [TemporalFilter.update_person_buffers]
    have hnone : assocGet (tf.cleanup_old_tracks []).person_buffers pid = none := by
      simpa using (keyfact [] pid).1
    rw [hnone]
    have hsize : (tf.cleanup_old_tracks []).buffer_size = tf.buffer_size := by
      have : ∀ (ks : List Nat) (tf0 : TemporalFilter),
          (ks.foldl (fun acc pid => if pid ∈ ([] : List Nat) then acc
            else acc.remove_person pid) tf0).buffer_size = tf0.buffer_size := by
        intro ks
        induction ks with
        | nil => intro tf0; rfl
        | cons k ks ih =>
            intro tf0
            simpa using ih (tf0.remove_person k)
      exact this _ tf
    rw [hsize]
    simp only [Option.getD_none, List.nil_append]
    rw [lastN_singleton _ hbs]
    exact assocGet_assocSet_self _ _ _

/-- Witness for C8 on a fresh filter, active set `[3]`, then cleanup to `[]`
followed by an update for person 4. -/
theorem cleanup_old_tracks_spec_witness :
    (assocGet ((mkTemporalFilter 10 (7/10)).cleanup_old_tracks [3]).person_buffers 3
      = assocGet (mkTemporalFilter 10 (7/10)).person_buffers 3)
    ∧ ((mkTemporalFilter 10 (7/10)).cleanup_old_tracks []).get_status 4 = none
    ∧ assocGet (((mkTemporalFilter 10 (7/10)).cleanup_old_tracks []).update
        4 false ["helmet"] ["vest"]).2.person_buffers 4
      = some [{ compliant := false, detected_ppe := ["helmet"], missing_ppe := ["vest"] }] := by
  have h := cleanup_old_tracks_spec (mkTemporalFilter 10 (7/10)) [3]
    (by intro pid hp; simp [mkTemporalFilter, assocGet] at hp)
  exact ⟨(h.1 3).trans (by simp), h.2.2.1 4,
    h.2.2.2 (by norm_num [mkTemporalFilter]) 4 false ["helmet"] ["vest"]⟩

/-! ## PersonMatcher (src/core/person_matcher.py) -/

/-- Configuration of `PersonMatcher`. -/
structure PersonMatcher where
  spatial_weight : ℚ
  appearance_weight : ℚ
  max_distance_threshold : ℚ

/-- `bbox[i]` of a Python bbox list (call sites always pass length-4 lists). -/
def qAt (l : List ℚ) (i : Nat) : ℚ := (l.get? i).getD 0

/-- Numeric value of a dict entry. -/
def PyVal.asQ : PyVal → ℚ
  | .q x => x
  | _ => 0

/-- `person.get("bbox", [0, 0, 1, 1])` as a rational list. -/
def pyBbox (p : PyDict) : List ℚ :=
  match dictGet p "bbox" (.arr [.q 0, .q 0, .q 1, .q 1]) with
  | .arr xs => xs.map PyVal.asQ
  | _ => [0, 0, 1, 1]

/-- `PersonMatcher._compute_spatial_distance`: distance between normalized
bbox centres, divided by `sqrt 2` and clamped to 1. -/
def PersonMatcher.compute_spatial_distance (p1 p2 : PyDict) : ℚ :=
  let bbox1 := pyBbox p1
  let bbox2 := pyBbox p2
  let c1x := (qAt bbox1 0 + qAt bbox1 2) / 2
  let c1y := (qAt bbox1 1 + qAt bbox1 3) / 2
  let c2x := (qAt bbox2 0 + qAt bbox2 2) / 2
  let c2y := (qAt bbox2 1 + qAt bbox2 3) / 2
  let distance := ratSqrt ((c1x - c2x) ^ 2 + (c1y - c2y) ^ 2)
  min (distance / ratSqrt 2) 1

/-- `PersonMatcher._compute_cost_matrix`. The appearance term (cv2 colour
histograms of the two frames) enters the source only through one rational
distance per pair; it is modelled by the oracle `appearance`, with `none`
for the frames-omitted call (pure spatial cost, as in the source's `else`
branch). -/
def PersonMatcher.compute_cost_matrix (m : PersonMatcher) (ps1 ps2 : List PyDict)
    (appearance : Option (Nat → Nat → ℚ)) : Nat → Nat → ℚ :=
  fun i j =>
    let p1 := (ps1.get? i).getD []
    let p2 := (ps2.get? j).getD []
    let spatial_cost := PersonMatcher.compute_spatial_distance p1 p2
    match appearance with
    | some f => m.spatial_weight * spatial_cost + m.appearance_weight * f i j
    | none => spatial_cost

/-- All ways to choose an ordered list of `k` distinct elements of `avail`. -/
def picks : Nat → List Nat → List (List Nat)
  | 0, _ => [[]]
  | k + 1, avail =>
      avail.flatMap (fun c => (picks k (avail.erase c)).map (fun σ => c :: σ))

/-- Total cost of assigning row `i` to column `σ_i`. -/
def assignCost (cost : Nat → Nat → ℚ) (σ : List Nat) : ℚ :=
  (σ.enum.map (fun e => cost e.1 e.2)).sum

/-- First minimizer of `f` in a list. -/
def argminBy {α : Type} (f : α → ℚ) : List α → Option α
  | [] => none
  | c :: cs => some (cs.foldl (fun best x => if f x < f best then x else best) c)

/-- Model of `scipy.optimize.linear_sum_assignment` on an `n × m` cost
matrix: a minimum-total-cost one-to-one assignment saturating the smaller
side, returned as (row, col) pairs with rows increasing. -/
def linear_sum_assignment (cost : Nat → Nat → ℚ) (n m : Nat) : List (Nat × Nat) :=
  if n ≤ m then
    match argminBy (assignCost cost) (picks n (List.range m)) with
    | some σ => σ.enum
    | none => []
  else
    match argminBy (assignCost (fun i j => cost j i)) (picks m (List.range n)) with
    | some τ => List.mergeSort (τ.enum.map (fun e => (e.2, e.1)))
        (fun a b => decide (a.1 ≤ b.1))
    | none => []

/-- `PersonMatcher.match_persons`: empty input short-circuit, optimal
assignment over the cost matrix, then the confidence filter
`1 - cost ≥ 1 - max_distance_threshold`. -/
def PersonMatcher.match_persons (m : PersonMatcher) (ps1 ps2 : List PyDict)
    (appearance : Option (Nat → Nat → ℚ)) : List (Nat × Nat × ℚ) :=
  if ps1.isEmpty || ps2.isEmpty then []
  else
    let cost := m.compute_cost_matrix ps1 ps2 appearance
    let pairs := linear_sum_assignment cost ps1.length ps2.length
    (pairs.filter
        (fun e => decide (1 - m.max_distance_threshold ≤ 1 - cost e.1 e.2))).map
      (fun e => (e.1, e.2, 1 - cost e.1 e.2))

/-! ### Assignment lemmas -/

theorem picks_mem : ∀ {k : Nat} {avail : List Nat} {σ : List Nat},
    σ ∈ picks k avail → avail.Nodup →
    σ.length = k ∧ σ.Nodup ∧ ∀ c ∈ σ, c ∈ avail
  | 0, avail, σ, h, _ => by
      simp [picks] at h
      subst h
      simp
  | k + 1, avail, σ, h, hn => by
      simp only [picks, List.mem_flatMap, List.mem_map] at h
      obtain ⟨c, hc, σ', hσ', rfl⟩ := h
      have hne : (avail.erase c).Nodup := hn.erase c
      obtain ⟨hl, hnd, hsub⟩ := picks_mem hσ' hne
      refine ⟨by simp [hl], ?_, ?_⟩
      · refine List.nodup_cons.mpr ⟨?_, hnd⟩
        intro hmem
        exact hn.not_mem_erase (hsub c hmem)
      · intro x hx
        rcases List.mem_cons.mp hx with rfl | hx'
        · exact hc
        · exact List.mem_of_mem_erase (hsub x hx')

theorem foldl_choice_mem {α : Type} (p : α → α → Bool) :
    ∀ (cs : List α) (b : α),
      (cs.foldl (fun best x => if p x best then x else best) b) ∈ b :: cs
  | [], b => by simp
  | x :: cs, b => by
      simp only [List.foldl_cons]
      have h := foldl_choice_mem p cs (if p x b then x else b)
      by_cases hp : p x b
      · rw [if_pos hp] at h ⊢
        rcases List.mem_cons.mp h with h1 | h1
        · rw [h1]
          exact List.mem_cons_of_mem _ (List.mem_cons_self _ _)
        · exact List.mem_cons_of_mem _ (List.mem_cons_of_mem _ h1)
      · rw [if_neg hp] at h ⊢
        rcases List.mem_cons.mp h with h1 | h1
        · rw [h1]
          exact List.mem_cons_self _ _
        · exact List.mem_cons_of_mem _ (List.mem_cons_of_mem _ h1)

theorem argminBy_mem {α : Type} {f : α → ℚ} {l : List α} {σ : α}
    (h : argminBy f l = some σ) : σ ∈ l := by
  cases l with
  | nil => simp [argminBy] at h
  | cons c cs =>
      simp only [argminBy, Option.some.injEq] at h
      subst h
      exact foldl_choice_mem _ cs c

theorem linear_sum_assignment_spec (cost : Nat → Nat → ℚ) (n m : Nat) :
    ((linear_sum_assignment cost n m).map Prod.fst).Nodup
    ∧ ((linear_sum_assignment cost n m).map Prod.snd).Nodup
    ∧ ∀ e ∈ linear_sum_assignment cost n m, e.1 < n ∧ e.2 < m := by
  unfold linear_sum_assignment
  by_cases hnm : n ≤ m
  · rw [if_pos hnm]
    cases hargmin : argminBy (assignCost cost) (picks n (List.range m)) with
    | none => simp
    | some σ =>
        obtain ⟨hl, hnd, hsub⟩ :=
          picks_mem (argminBy_mem hargmin) (List.nodup_range m)
        refine ⟨?_, ?_, ?_⟩
        · rw [List.enum_map_fst]
          exact List.nodup_range _
        · rw [List.enum_map_snd]
          exact hnd
        · intro e he
          have h1 : e.1 < σ.length := by
            have : e.1 ∈ σ.enum.map Prod.fst := List.mem_map_of_mem _ he
            rw [List.enum_map_fst] at this
            exact List.mem_range.mp this
          have h2 : e.2 ∈ σ := by
            have : e.2 ∈ σ.enum.map Prod.snd := List.mem_map_of_mem _ he
            rwa [List.enum_map_snd] at this
          exact ⟨hl ▸ h1, List.mem_range.mp (hsub _ h2)⟩
  · rw [if_neg hnm]
    cases hargmin : argminBy (assignCost (fun i j => cost j i))
        (picks m (List.range n)) with
    | none => simp
    | some τ =>
        obtain ⟨hl, hnd, hsub⟩ :=
          picks_mem (argminBy_mem hargmin) (List.nodup_range n)
        have hperm := List.mergeSort_perm (τ.enum.map (fun e => (e.2, e.1)))
          (fun a b => decide (a.1 ≤ b.1))
        have hfst : (τ.enum.map (fun e => (e.2, e.1))).map Prod.fst
            = τ.enum.map Prod.snd := by
          rw [List.map_map]
          rfl
        have hsnd : (τ.enum.map (fun e => (e.2, e.1))).map Prod.snd
            = τ.enum.map Prod.fst := by
          rw [List.map_map]
          rfl
        refine ⟨?_, ?_, ?_⟩
        · refine ((hperm.map Prod.fst).nodup_iff).mpr ?_
          rw [hfst, List.enum_map_snd]
          exact hnd
        · refine ((hperm.map Prod.snd).nodup_iff).mpr ?_
          rw [hsnd, List.enum_map_fst]
          exact List.nodup_range _
        · intro e he
          have hmm : e ∈ τ.enum.map (fun e => (e.2, e.1)) := hperm.mem_iff.mp he
          obtain ⟨e2, he2, rfl⟩ := List.mem_map.mp hmm
          have h1 : e2.1 < τ.length := by
            have hh : e2.1 ∈ τ.enum.map Prod.fst := List.mem_map_of_mem _ he2
            rw [List.enum_map_fst] at hh
            exact List.mem_range.mp hh
          have h2 : e2.2 ∈ τ := by
            have hh : e2.2 ∈ τ.enum.map Prod.snd := List.mem_map_of_mem _ he2
            rwa [List.enum_map_snd] at hh
          exact ⟨List.mem_range.mp (hsub _ h2), hl ▸ h1⟩

/-- C6: every `match_persons` result is a one-to-one partial matching (no
camera-1 index repeats, no camera-2 index repeats), each returned tuple's
confidence equals `1 - cost` and clears `1 - max_distance_threshold`, and
an empty input list yields an empty result. -/
theorem match_persons_spec (m : PersonMatcher) (ps1 ps2 : List PyDict)
    (appearance : Option (Nat → Nat → ℚ)) :
    ((m.match_persons ps1 ps2 appearance).map (fun e => e.1)).Nodup
    ∧ ((m.match_persons ps1 ps2 appearance).map (fun e => e.2.1)).Nodup
    ∧ (∀ e ∈ m.match_persons ps1 ps2 appearance,
        e.2.2 = 1 - m.compute_cost_matrix ps1 ps2 appearance e.1 e.2.1
        ∧ 1 - m.max_distance_threshold ≤ e.2.2)
    ∧ (ps1 = [] ∨ ps2 = [] → m.match_persons ps1 ps2 appearance = []) := by
  by_cases hemp : ps1.isEmpty || ps2.isEmpty
  · have heq : m.match_persons ps1 ps2 appearance = [] := by
      unfold PersonMatcher.match_persons
      rw [if_pos hemp]
    rw [heq]
    exact ⟨List.nodup_nil, List.nodup_nil, by simp, fun _ => rfl⟩
  · have heq : m.match_persons ps1 ps2 appearance
        = ((linear_sum_assignment (m.compute_cost_matrix ps1 ps2 appearance)
              ps1.length ps2.length).filter
            (fun e => decide (1 - m.max_distance_threshold
              ≤ 1 - m.compute_cost_matrix ps1 ps2 appearance e.1 e.2))).map
          (fun e => (e.1, e.2,
            1 - m.compute_cost_matrix ps1 ps2 appearance e.1 e.2)) := by
      unfold PersonMatcher.match_persons
      rw [if_neg hemp]
    obtain ⟨hf, hs, _⟩ := linear_sum_assignment_spec
      (m.compute_cost_matrix ps1 ps2 appearance) ps1.length ps2.length
    rw [heq]
    refine ⟨?_, ?_, ?_, ?_⟩
    · rw [List.map_map]
      exact List.Nodup.sublist
        (List.Sublist.map Prod.fst (List.filter_sublist _)) hf
    · rw [List.map_map]
      exact List.Nodup.sublist
        (List.Sublist.map Prod.snd (List.filter_sublist _)) hs
    · intro e he
      obtain ⟨e2, he2, rfl⟩ := List.mem_map.mp he
      obtain ⟨_, hp⟩ := List.mem_filter.mp he2
      exact ⟨rfl, of_decide_eq_true hp⟩
    · rintro (rfl | rfl) <;> simp at hemp

/-- Matcher with the source's default weights and threshold. -/
def matcherW : PersonMatcher :=
  { spatial_weight := 3/5, appearance_weight := 2/5, max_distance_threshold := 1/2 }

def personA : PyDict := [("bbox", .arr [.q 0, .q 0, .q (1/2), .q (1/2)])]

def personB : PyDict := [("bbox", .arr [.q (1/2), .q (1/2), .q 1, .q 1])]

unseal Rat.mul Rat.inv Rat.add Rat.sub in
/-- Witness for C6: two persons per camera at distinct centres; the matched
pair (0,0) has confidence `1 = 1 - cost` above the floor, and an empty
camera-1 list yields no matches. -/
theorem match_persons_spec_witness :
    ((0, 0, (1:ℚ)).2.2
        = 1 - matcherW.compute_cost_matrix [personA, personB] [personA, personB] none 0 0
      ∧ 1 - matcherW.max_distance_threshold ≤ (0, 0, (1:ℚ)).2.2)
    ∧ matcherW.match_persons [] [personA] none = [] := by
  exact ⟨(match_persons_spec matcherW [personA, personB] [personA, personB] none).2.2.1
      (0, 0, 1) (by decide),
    (match_persons_spec matcherW [] [personA] none).2.2.2 (Or.inl rfl)⟩

/-! ## FusionDetector (src/core/fusion_detector.py) and
`PersonMatcher.fuse_person_data` (src/core/person_matcher.py) -/

/-- `set(l)` for a list of strings (membership-faithful; first-occurrence
order stands in for Python's unspecified set iteration order). -/
def pySet (l : List String) : List String := firstUniques l

/-- `s & t`. -/
def pySetInter (s t : List String) : List String :=
  s.filter (fun x => decide (x ∈ t))

/-- `s | t`. -/
def pySetUnion (s t : List String) : List String :=
  s ++ t.filter (fun x => decide (x ∉ s))

/-- `s - t`. -/
def pySetDiff (s t : List String) : List String :=
  s.filter (fun x => decide (x ∉ t))

/-- `s ^ t`. -/
def pySetXor (s t : List String) : List String :=
  pySetDiff s t ++ pySetDiff t s

/-- Keys of `d1` then the new keys of `d2`: `set(d1.keys()) | set(d2.keys())`. -/
def unionKeys (d1 d2 : PyDict) : List String :=
  d1.map (fun e => e.1)
    ++ (d2.map (fun e => e.1)).filter (fun k => decide (k ∉ d1.map (fun e => e.1)))

/-- The `"filtered_status"` sub-dict of a person record:
`person.get("filtered_status", {})`. -/
def filteredStatusOf (p : PyDict) : PyDict :=
  match dictGet p "filtered_status" (.dict []) with
  | .dict xs => xs
  | _ => []

/-- `person.get("filtered_status", {}).get("missing_ppe", [])` as strings. -/
def missingListOf (p : PyDict) : List String :=
  match dictGet (filteredStatusOf p) "missing_ppe" (.arr []) with
  | .arr xs => xs.filterMap (fun v => match v with | .s x => some x | _ => none)
  | _ => []

/-- A dict-typed entry of a dict (`d.get(k, {})`). -/
def subDict (d : PyDict) (k : String) : PyDict :=
  match dictGet d k (.dict []) with
  | .dict xs => xs
  | _ => []

/-- `PersonMatcher.fuse_person_data`: merge two matched person records —
track id from camera 1 (falling back to camera 2), per-item PPE fusion with
OR for detection and MAX for confidence. -/
def PersonMatcher.fuse_person_data (person_cam1 person_cam2 : PyDict)
    (match_confidence : ℚ) : PyDict :=
  let track_id := dictGet person_cam1 "track_id" (dictGet person_cam2 "track_id" .pnone)
  let ppe_cam1 := subDict person_cam1 "ppe_status"
  let ppe_cam2 := subDict person_cam2 "ppe_status"
  let all_ppe_types := unionKeys ppe_cam1 ppe_cam2
  let fused_ppe : PyDict := all_ppe_types.map (fun t =>
    let detected_cam1 := dictGet (subDict ppe_cam1 t) "detected" (.b false)
    let detected_cam2 := dictGet (subDict ppe_cam2 t) "detected" (.b false)
    let conf_cam1 := dictGet (subDict ppe_cam1 t) "confidence" (.q 0)
    let conf_cam2 := dictGet (subDict ppe_cam2 t) "confidence" (.q 0)
    (t, .dict
      [("detected", .b (detected_cam1.truthy || detected_cam2.truthy)),
       ("confidence", .q (max conf_cam1.asQ conf_cam2.asQ)),
       ("cam1_detected", detected_cam1),
       ("cam2_detected", detected_cam2),
       ("cam1_confidence", conf_cam1),
       ("cam2_confidence", conf_cam2)]))
  [("track_id", track_id),
   ("bbox_cam1", dictGet person_cam1 "bbox" .pnone),
   ("bbox_cam2", dictGet person_cam2 "bbox" .pnone),
   ("ppe_status", .dict fused_ppe),
   ("match_confidence", .q match_confidence),
   ("person_cam1", .dict person_cam1),
   ("person_cam2", .dict person_cam2)]

/-- `FusionDetector._merge_missing_ppe`: the source computes a union and a
symmetric-difference it then discards, returning only the intersection. -/
def FusionDetector.merge_missing_ppe (person1 person2 : PyDict) : List String :=
  let missing1 := pySet (missingListOf person1)
  let missing2 := pySet (missingListOf person2)
  let all_required := pySetUnion missing1 missing2
  let seen_by_either := pySetDiff (pySetXor missing1 missing2) (pySetInter missing1 missing2)
  let truly_missing := pySetInter missing1 missing2
  truly_missing

/-- The per-matched-pair body of `FusionDetector._fuse_two_cameras`
(lines 171–203): fuse the pair, read each camera's violation flag from
`filtered_status.get("has_violation", False)`, combine it under the
configured strategy, and overwrite the fused `filtered_status`. -/
def FusionDetector.fuse_matched_pair (strategy : String)
    (person1 person2 : PyDict) (confidence : ℚ) : PyDict :=
  let fused_person := PersonMatcher.fuse_person_data person1 person2 confidence
  let violation1 := (dictGet (filteredStatusOf person1) "has_violation" (.b false)).truthy
  let violation2 := (dictGet (filteredStatusOf person2) "has_violation" (.b false)).truthy
  let has_violation :=
    if strategy = "or" then violation1 || violation2
    else if strategy = "and" then violation1 && violation2
    else (violation1 || violation2) && decide ((1:ℚ)/2 < confidence)
  dictSet fused_person "filtered_status" (.dict
    [("has_violation", .b has_violation),
     ("missing_ppe", .arr ((FusionDetector.merge_missing_ppe person1 person2).map .s)),
     ("cam1_violation", .b violation1),
     ("cam2_violation", .b violation2)])

/-! ### Set-model lemmas -/

theorem mem_firstUniquesAux (x : String) :
    ∀ (l seen : List String), x ∈ firstUniquesAux l seen ↔ (x ∈ l ∧ x ∉ seen)
  | [], seen => by simp [firstUniquesAux]
  | y :: ys, seen => by
      by_cases hy : y ∈ seen
      · rw [firstUniquesAux, if_pos hy, mem_firstUniquesAux x ys seen]
        constructor
        · rintro ⟨h1, h2⟩
          exact ⟨List.mem_cons_of_mem _ h1, h2⟩
        · rintro ⟨h1, h2⟩
          rcases List.mem_cons.mp h1 with rfl | h1'
          · exact absurd hy h2
          · exact ⟨h1', h2⟩
      · rw [firstUniquesAux, if_neg hy]
        constructor
        · intro h
          rcases List.mem_cons.mp h with rfl | h'
          · exact ⟨List.mem_cons_self _ _, hy⟩
          · obtain ⟨h1, h2⟩ := (mem_firstUniquesAux x ys (y :: seen)).mp h'
            refine ⟨List.mem_cons_of_mem _ h1, fun hs => h2 (List.mem_cons_of_mem _ hs)⟩
        · rintro ⟨h1, h2⟩
          rcases List.mem_cons.mp h1 with rfl | h1'
          · exact List.mem_cons_self _ _
          · by_cases hxy : x = y
            · subst hxy
              exact List.mem_cons_self _ _
            · refine List.mem_cons_of_mem _
                ((mem_firstUniquesAux x ys (y :: seen)).mpr ⟨h1', ?_⟩)
              intro hs
              rcases List.mem_cons.mp hs with h3 | h3
              · exact hxy h3
              · exact h2 h3

theorem mem_pySet (x : String) (l : List String) : x ∈ pySet l ↔ x ∈ l := by
  rw [pySet, firstUniques, mem_firstUniquesAux]
  simp

/-- C9: an item is in the fused missing-PPE list produced by
`_merge_missing_ppe` iff both persons' filtered `missing_ppe` lists contain
it — intersection (AND) semantics, the unions the source also computes
being discarded. -/
theorem merge_missing_ppe_spec (p1 p2 : PyDict) (x : String) :
    x ∈ FusionDetector.merge_missing_ppe p1 p2
      ↔ (x ∈ missingListOf p1 ∧ x ∈ missingListOf p2) := by
  unfold FusionDetector.merge_missing_ppe
  dsimp only
  rw [pySetInter]
  constructor
  · intro h
    obtain ⟨h1, h2⟩ := List.mem_filter.mp h
    exact ⟨(mem_pySet _ _).mp h1, (mem_pySet _ _).mp (of_decide_eq_true h2)⟩
  · rintro ⟨h1, h2⟩
    exact List.mem_filter.mpr ⟨(mem_pySet _ _).mpr h1,
      decide_eq_true ((mem_pySet _ _).mpr h2)⟩

/-- Camera-1 person as assembled by `PoseBasedDetector.process_frame`: its
`filtered_status` is the dict returned by `TemporalFilter.update` — here
one non-compliant observation, so `is_violation = True`. -/
def personCam1 : PyDict :=
  [("person_id", .q 1), ("bbox", .arr [.q 0, .q 0, .q (1/2), .q (1/2)]),
   ("confidence", .q (9/10)),
   ("filtered_status", .dict (tfRunNonCompliant 1).1)]

/-- Camera-2 person with a compliant observation (`is_violation = False`). -/
def personCam2 : PyDict :=
  [("person_id", .q 2), ("bbox", .arr [.q 0, .q 0, .q (1/2), .q (1/2)]),
   ("confidence", .q (9/10)),
   ("filtered_status", .dict ((mkTemporalFilter 10 (7/10)).update 2 true
      ["helmet"] []).1)]

unseal Rat.mul Rat.inv Rat.add Rat.sub in
/-- C2: the per-camera pipeline stores the violation flag under
`"is_violation"` (true for camera 1, false for camera 2 here), but
`_fuse_two_cameras` reads `"has_violation"`, a key the pipeline never
writes; its `.get` default makes both per-camera flags `False`, so under
strategy `"or"` the fused flag is `False` — not the `True` the claim (and
the code's own comment) require. -/
theorem fusion_or_strategy_key_mismatch :
    dictGetBool (filteredStatusOf personCam1) "is_violation" = true
    ∧ dictGetBool (filteredStatusOf personCam2) "is_violation" = false
    ∧ dictGetBool (filteredStatusOf
        (FusionDetector.fuse_matched_pair "or" personCam1 personCam2 1))
        "has_violation" = false
    ∧ dictGetBool (filteredStatusOf
        (FusionDetector.fuse_matched_pair "or" personCam1 personCam2 1))
        "cam1_violation" = false := by
  decide

/-! ## PersonTracker (src/core/tracker.py)

The Kalman filter of `filterpy` is embedded exactly over ℚ (state mean,
covariance, Joseph-form update, `np.linalg.inv` of the 4×4 innovation
covariance via the adjugate); `np.sqrt` in the bbox conversion is `ratSqrt`.
`Track._id_counter`, a Python class attribute, is modelled as the field
`next_id` of the tracker state, which matches the source for a single
tracker instance (the setting of every claim). -/

/-- Sum of `f 0 + ... + f (n-1)`. -/
def sumN : Nat → (Nat → ℚ) → ℚ
  | 0, _ => 0
  | n + 1, f => sumN n f + f n

/-- Matrices indexed by naturals (dimensions passed explicitly). -/
abbrev Mat := Nat → Nat → ℚ

abbrev Vec := Nat → ℚ

/-- `A · B` with inner dimension `k`. -/
def matMul (k : Nat) (A B : Mat) : Mat := fun i j => sumN k (fun t => A i t * B t j)

/-- `A · x` with inner dimension `k`. -/
def matVec (k : Nat) (A : Mat) (x : Vec) : Vec := fun i => sumN k (fun t => A i t * x t)

def matT (A : Mat) : Mat := fun i j => A j i

def matAdd (A B : Mat) : Mat := fun i j => A i j + B i j

def matSub (A B : Mat) : Mat := fun i j => A i j - B i j

def idMat : Mat := fun i j => if i = j then 1 else 0

/-- State transition `F` (constant velocity on centre and scale). -/
def kfF : Mat := fun i j =>
  if i = j then 1 else if j = i + 4 ∧ i < 3 then 1 else 0

/-- Measurement matrix `H = [I₄ 0]`. -/
def kfH : Mat := fun i j => if i = j ∧ i < 4 then 1 else 0

/-- Measurement noise `R = 10·I₄` (`kf.R *= 10.0`). -/
def kfR : Mat := fun i j => if i = j then 10 else 0

/-- Process noise `Q` after `Q[-1,-1] *= 0.01; Q[4:,4:] *= 0.01`. -/
def kfQ : Mat := fun i j =>
  if i = j then (if i = 6 then 1/10000 else if 4 ≤ i then 1/100 else 1) else 0

/-- Initial covariance after `P[4:,4:] *= 1000.0; P *= 10.0`. -/
def kfP0 : Mat := fun i j =>
  if i = j then (if 4 ≤ i then 10000 else 10) else 0

/-- 3×3 determinant of the sub-matrix on the given rows/columns. -/
def det3 (m : Mat) (r0 r1 r2 c0 c1 c2 : Nat) : ℚ :=
  m r0 c0 * (m r1 c1 * m r2 c2 - m r1 c2 * m r2 c1)
    - m r0 c1 * (m r1 c0 * m r2 c2 - m r1 c2 * m r2 c0)
    + m r0 c2 * (m r1 c0 * m r2 c1 - m r1 c1 * m r2 c0)

def det4 (m : Mat) : ℚ :=
  m 0 0 * det3 m 1 2 3 1 2 3 - m 0 1 * det3 m 1 2 3 0 2 3
    + m 0 2 * det3 m 1 2 3 0 1 3 - m 0 3 * det3 m 1 2 3 0 1 2

/-- The other three indices of `{0,1,2,3}`, in order. -/
def others (i : Nat) : Nat × Nat × Nat :=
  if i = 0 then (1, 2, 3) else if i = 1 then (0, 2, 3)
  else if i = 2 then (0, 1, 3) else (0, 1, 2)

def cof4 (m : Mat) (i j : Nat) : ℚ :=
  (if (i + j) % 2 = 0 then 1 else -1)
    * det3 m (others i).1 (others i).2.1 (others i).2.2
        (others j).1 (others j).2.1 (others j).2.2

/-- `np.linalg.inv` on a 4×4 matrix, by the adjugate formula. -/
def inv4 (m : Mat) : Mat := fun i j => cof4 m j i / det4 m

/-- Kalman state: mean and covariance. -/
structure KF where
  x : Vec
  P : Mat

/-- `kf.predict()`: `x := F x`, `P := F P Fᵀ + Q`. -/
def KF.predict (kf : KF) : KF :=
  { x := matVec 7 kfF kf.x
    P := matAdd (matMul 7 (matMul 7 kfF kf.P) (matT kfF)) kfQ }

/-- `kf.update(z)` (filterpy): innovation, gain `K = P Hᵀ S⁻¹`, mean
update, Joseph-form covariance update. -/
def KF.update (kf : KF) (z : Vec) : KF :=
  let y : Vec := fun i => z i - sumN 7 (fun t => kfH i t * kf.x t)
  let PHT : Mat := matMul 7 kf.P (matT kfH)
  let S : Mat := matAdd (matMul 7 kfH PHT) kfR
  let SI : Mat := inv4 S
  let K : Mat := matMul 4 PHT SI
  let I_KH : Mat := matSub idMat (matMul 4 K kfH)
  { x := fun i => kf.x i + sumN 4 (fun t => K i t * y t)
    P := matAdd (matMul 7 (matMul 7 I_KH kf.P) (matT I_KH))
                (matMul 4 (matMul 4 K kfR) (matT K)) }

/-- Integer pixel box `[x1, y1, x2, y2]`. -/
structure Bbox where
  x1 : ℤ
  y1 : ℤ
  x2 : ℤ
  y2 : ℤ
deriving DecidableEq

/-- `Track._bbox_to_z`. -/
def bbox_to_z (bbox : Bbox) : Vec := fun i =>
  let w : ℚ := ((bbox.x2 - bbox.x1 : ℤ) : ℚ)
  let h : ℚ := ((bbox.y2 - bbox.y1 : ℤ) : ℚ)
  if i = 0 then (bbox.x1 : ℚ) + w / 2
  else if i = 1 then (bbox.y1 : ℚ) + h / 2
  else if i = 2 then w * h
  else if i = 3 then w / max h (1 / 1000000)
  else 0

/-- `Track._z_to_bbox`. -/
def z_to_bbox (x : Vec) : Bbox :=
  let w := ratSqrt (x 2 * x 3)
  let h := x 2 / max w (1 / 1000000)
  { x1 := pyInt (x 0 - w / 2), y1 := pyInt (x 1 - h / 2)
    x2 := pyInt (x 0 + w / 2), y2 := pyInt (x 1 + h / 2) }

/-- A detection handed to the tracker. -/
structure Detection where
  bbox : Bbox
  confidence : ℚ
deriving DecidableEq

/-- `Track` state. -/
structure Track where
  id : Nat
  bbox : Bbox
  confidence : ℚ
  age : Nat
  hits : Nat
  time_since_update : Nat
  kf : KF

/-- `Track.__init__` (id supplied by the tracker's counter, see the module
comment). -/
def mkTrack (bbox : Bbox) (confidence : ℚ) (id : Nat) : Track :=
  { id := id, bbox := bbox, confidence := confidence
    age := 0, hits := 1, time_since_update := 0
    kf := { x := bbox_to_z bbox, P := kfP0 } }

/-- `Track.predict`. -/
def Track.predict (t : Track) : Track :=
  let hits' := if 0 < t.time_since_update then 0 else t.hits
  let kf' := t.kf.predict
  { t with hits := hits', time_since_update := t.time_since_update + 1
           age := t.age + 1, kf := kf', bbox := z_to_bbox kf'.x }

/-- `Track.update`. -/
def Track.update (t : Track) (bbox : Bbox) (confidence : ℚ) : Track :=
  let kf' := t.kf.update (bbox_to_z bbox)
  { t with time_since_update := 0, hits := t.hits + 1, confidence := confidence
           kf := kf', bbox := z_to_bbox kf'.x }

/-- `PersonTracker._iou`. -/
def iou (b1 b2 : Bbox) : ℚ :=
  let x1 := max b1.x1 b2.x1
  let y1 := max b1.y1 b2.y1
  let x2 := min b1.x2 b2.x2
  let y2 := min b1.y2 b2.y2
  let intersection : ℚ := ((max 0 (x2 - x1) * max 0 (y2 - y1) : ℤ) : ℚ)
  let area1 : ℚ := (((b1.x2 - b1.x1) * (b1.y2 - b1.y1) : ℤ) : ℚ)
  let area2 : ℚ := (((b2.x2 - b2.x1) * (b2.y2 - b2.y1) : ℤ) : ℚ)
  let union := area1 + area2 - intersection
  intersection / max union (1 / 1000000)

/-- Tracker state (`next_id` models `Track._id_counter`, see above). -/
structure PersonTracker where
  max_age : Nat
  min_hits : Nat
  iou_threshold : ℚ
  tracks : List Track
  frame_count : Nat
  next_id : Nat

/-- `PersonTracker(max_age, min_hits, iou_threshold)`. -/
def mkPersonTracker (max_age min_hits : Nat) (iou_threshold : ℚ) : PersonTracker :=
  { max_age := max_age, min_hits := min_hits, iou_threshold := iou_threshold
    tracks := [], frame_count := 0, next_id := 0 }

def dummyDetection : Detection := { bbox := ⟨0, 0, 0, 0⟩, confidence := 0 }

def dummyTrack : Track := mkTrack ⟨0, 0, 0, 0⟩ 0 0

/-- `PersonTracker._associate_detections` (on the already-predicted track
list): IoU cost matrix, optimal assignment, then the low-IoU demotion. -/
def PersonTracker.associate_detections (pt : PersonTracker)
    (detections : List Detection) :
    List (Nat × Nat) × List Nat × List Nat :=
  if pt.tracks.length = 0 then
    ([], List.range detections.length, [])
  else
    let iou_matrix : Nat → Nat → ℚ := fun d t =>
      iou ((detections.get? d).getD dummyDetection).bbox
          ((pt.tracks.get? t).getD dummyTrack).bbox
    let cost_matrix : Nat → Nat → ℚ := fun d t => 1 - iou_matrix d t
    let matched_indices :=
      if 0 < detections.length * pt.tracks.length then
        linear_sum_assignment cost_matrix detections.length pt.tracks.length
      else []
    let unmatched_detections :=
      (List.range detections.length).filter
        (fun d => decide (d ∉ matched_indices.map Prod.fst))
    let unmatched_tracks :=
      (List.range pt.tracks.length).filter
        (fun t => decide (t ∉ matched_indices.map Prod.snd))
    let low := matched_indices.filter
      (fun m => decide (iou_matrix m.1 m.2 < pt.iou_threshold))
    let kept := matched_indices.filter
      (fun m => decide (¬ iou_matrix m.1 m.2 < pt.iou_threshold))
    (kept, unmatched_detections ++ low.map Prod.fst,
      unmatched_tracks ++ low.map Prod.snd)

/-- `PersonTracker._get_track_by_id`. -/
def get_track_by_id (tracks : List Track) (track_id : Nat) : Option Track :=
  tracks.find? (fun t => decide (t.id = track_id))

/-- One reported person (`det.copy()` with `person_id` and `bbox`
overwritten). -/
structure TrackedDet where
  person_id : Nat
  bbox : Bbox
  confidence : ℚ
deriving DecidableEq

/-- One iteration of the report loop of `PersonTracker.update` for the
detection at index `i`: the first matched pair with this detection index
names a track index into the post-eviction list — `none` models the
`IndexError` when that stale index is out of range. -/
def reportOne (det : Detection) (i : Nat) (matched : List (Nat × Nat))
    (tracks : List Track) (min_hits : Nat) : Option (List TrackedDet) :=
  match matched.find? (fun m => decide (m.1 = i)) with
  | none => some []
  | some m =>
      match tracks.get? m.2 with
      | none => none
      | some tr =>
          match get_track_by_id tracks tr.id with
          | some track =>
              if min_hits ≤ track.hits then
                some [{ person_id := tr.id, bbox := track.bbox
                        confidence := det.confidence }]
              else some []
          | none => some []

/-- The report loop over `enumerate(detections)`. -/
def reportList (matched : List (Nat × Nat)) (tracks : List Track)
    (min_hits : Nat) : List (Nat × Detection) → Option (List TrackedDet)
  | [] => some []
  | (i, det) :: rest =>
      match reportOne det i matched tracks min_hits with
      | none => none
      | some add =>
          match reportList matched tracks min_hits rest with
          | none => none
          | some out => some (add ++ out)

/-- The predict / associate / update-matched / spawn stages of one
`update` call: the track list to which the dead-track filter is applied,
the id counter after spawning, and the accepted matches. -/
def PersonTracker.preEvict (pt : PersonTracker) (detections : List Detection) :
    List Track × Nat × List (Nat × Nat) :=
  let predicted := { pt with tracks := pt.tracks.map Track.predict }
  let assoc := predicted.associate_detections detections
  let matched := assoc.1
  let unmatched_dets := assoc.2.1
  let tracks2 := matched.foldl (fun trks m =>
      match trks.get? m.2, detections.get? m.1 with
      | some t, some det => trks.set m.2 (t.update det.bbox det.confidence)
      | _, _ => trks) predicted.tracks
  let spawned := unmatched_dets.foldl (fun acc d =>
      match detections.get? d with
      | some det => (acc.1 ++ [mkTrack det.bbox det.confidence acc.2], acc.2 + 1)
      | none => acc) (tracks2, pt.next_id)
  (spawned.1, spawned.2, matched)

/-- `PersonTracker.update`: the state transition always completes (the
mutations precede the report loop); the output is `none` exactly when the
report loop would raise. -/
def PersonTracker.update (pt : PersonTracker) (detections : List Detection) :
    Option (List TrackedDet) × PersonTracker :=
  let pre := pt.preEvict detections
  let tracks4 := pre.1.filter (fun t => decide (t.time_since_update ≤ pt.max_age))
  let out := reportList pre.2.2 tracks4 pt.min_hits detections.enum
  (out, { pt with frame_count := pt.frame_count + 1, tracks := tracks4
                  next_id := pre.2.1 })

/-- Run a sequence of `update` calls, keeping the final state. -/
def PersonTracker.run (pt : PersonTracker) : List (List Detection) → PersonTracker
  | [] => pt
  | ds :: rest => ((pt.update ds).2).run rest

/-- Ids of the live tracks, in list (creation) order. -/
def trackIds (pt : PersonTracker) : List Nat := pt.tracks.map (fun t => t.id)

/-! ### Tracker invariants -/

/-- Ids strictly increase along the track list (creation order) and are all
below the id counter. -/
def TrackerInv (pt : PersonTracker) : Prop :=
  List.Pairwise (· < ·) (trackIds pt) ∧ ∀ t ∈ pt.tracks, t.id < pt.next_id

theorem ids_map_predict (tracks : List Track) :
    (tracks.map Track.predict).map (fun t => t.id) = tracks.map (fun t => t.id) := by
  rw [List.map_map]
  rfl

theorem ids_set_update :
    ∀ (trks : List Track) (n : Nat) (t : Track) (b : Bbox) (c : ℚ),
      trks.get? n = some t →
      (trks.set n (t.update b c)).map (fun x => x.id) = trks.map (fun x => x.id)
  | [], n, t, b, c, h => by simp at h
  | hd :: tl, 0, t, b, c, h => by
      simp only [List.get?] at h
      cases h
      rfl
  | hd :: tl, n + 1, t, b, c, h => by
      simp only [List.get?] at h
      simp only [List.set, List.map_cons]
      rw [ids_set_update tl n t b c h]

theorem ids_foldl_set_update (detections : List Detection) :
    ∀ (ms : List (Nat × Nat)) (trks : List Track),
      (ms.foldl (fun trks m =>
        match trks.get? m.2, detections.get? m.1 with
        | some t, some det => trks.set m.2 (t.update det.bbox det.confidence)
        | _, _ => trks) trks).map (fun t => t.id) = trks.map (fun t => t.id)
  | [], trks => rfl
  | m :: ms, trks => by
      simp only [List.foldl_cons]
      rw [ids_foldl_set_update detections ms]
      cases hg : trks.get? m.2 with
      | none => cases hd : detections.get? m.1 <;> simp [hg, hd]
      | some t =>
          cases hd : detections.get? m.1 with
          | none => simp [hg, hd]
          | some det =>
              simp only [hg, hd]
              exact ids_set_update trks m.2 t det.bbox det.confidence hg

theorem spawn_foldl (detections : List Detection) :
    ∀ (uds : List Nat) (acc : List Track × Nat),
      (List.Pairwise (· < ·) (acc.1.map (fun t => t.id)) →
        (∀ t ∈ acc.1, t.id < acc.2) →
        List.Pairwise (· < ·)
            ((uds.foldl (fun acc d =>
              match detections.get? d with
              | some det => (acc.1 ++ [mkTrack det.bbox det.confidence acc.2], acc.2 + 1)
              | none => acc) acc).1.map (fun t => t.id))
          ∧ ∀ t ∈ (uds.foldl (fun acc d =>
              match detections.get? d with
              | some det => (acc.1 ++ [mkTrack det.bbox det.confidence acc.2], acc.2 + 1)
              | none => acc) acc).1,
              t.id < (uds.foldl (fun acc d =>
              match detections.get? d with
              | some det => (acc.1 ++ [mkTrack det.bbox det.confidence acc.2], acc.2 + 1)
              | none => acc) acc).2)
      ∧ acc.2 ≤ (uds.foldl (fun acc d =>
          match detections.get? d with
          | some det => (acc.1 ++ [mkTrack det.bbox det.confidence acc.2], acc.2 + 1)
          | none => acc) acc).2
      ∧ (∀ t ∈ (uds.foldl (fun acc d =>
          match detections.get? d with
          | some det => (acc.1 ++ [mkTrack det.bbox det.confidence acc.2], acc.2 + 1)
          | none => acc) acc).1, t ∈ acc.1 ∨ acc.2 ≤ t.id)
  | [], acc => by
      refine ⟨fun h1 h2 => ⟨h1, h2⟩, le_refl _, fun t ht => Or.inl ht⟩
  | d :: uds, acc => by
      simp only [List.foldl_cons]
      cases hd : detections.get? d with
      | none =>
          simp only [hd]
          exact spawn_foldl detections uds acc
      | some det =>
          simp only [hd]
          have ih := spawn_foldl detections uds
            (acc.1 ++ [mkTrack det.bbox det.confidence acc.2], acc.2 + 1)
          refine ⟨?_, ?_, ?_⟩
          · intro h1 h2
            refine (ih.1 ?_ ?_)
            · rw [List.map_append]
              rw [List.pairwise_append]
              refine ⟨h1, List.pairwise_singleton _ _, ?_⟩
              intro a ha b hb
              simp only [List.map_cons, List.map_nil, List.mem_singleton] at hb
              subst hb
              obtain ⟨t0, ht0, rfl⟩ := List.mem_map.mp ha
              exact h2 t0 ht0
            · intro t ht
              rcases List.mem_append.mp ht with h | h
              · exact Nat.lt_succ_of_lt (h2 t h)
              · simp only [List.mem_singleton] at h
                subst h
                exact Nat.lt_succ_self _
          · exact le_trans (Nat.le_succ _) ih.2.1
          · intro t ht
            rcases ih.2.2 t ht with h | h
            · rcases List.mem_append.mp h with h1 | h1
              · exact Or.inl h1
              · simp only [List.mem_singleton] at h1
                subst h1
                exact Or.inr (le_refl _)
            · exact Or.inr (le_trans (Nat.le_succ _) h)

theorem preEvict_spec (pt : PersonTracker) (ds : List Detection) :
    pt.next_id ≤ (pt.preEvict ds).2.1
    ∧ (∀ t ∈ (pt.preEvict ds).1, t.id ∈ trackIds pt ∨ pt.next_id ≤ t.id)
    ∧ (TrackerInv pt →
        List.Pairwise (· < ·) ((pt.preEvict ds).1.map (fun t => t.id))
        ∧ ∀ t ∈ (pt.preEvict ds).1, t.id < (pt.preEvict ds).2.1) := by
  unfold PersonTracker.preEvict
  dsimp only
  have hids2 : ((({ pt with tracks := pt.tracks.map Track.predict } :
        PersonTracker).associate_detections ds).1.foldl (fun trks m =>
          match trks.get? m.2, ds.get? m.1 with
          | some t, some det => trks.set m.2 (t.update det.bbox det.confidence)
          | _, _ => trks) (pt.tracks.map Track.predict)).map (fun t => t.id)
      = pt.tracks.map (fun t => t.id) := by
    rw [ids_foldl_set_update ds]
    exact ids_map_predict pt.tracks
  have hsp := spawn_foldl ds
    ((({ pt with tracks := pt.tracks.map Track.predict } :
        PersonTracker).associate_detections ds).2.1)
    (((({ pt with tracks := pt.tracks.map Track.predict } :
        PersonTracker).associate_detections ds).1.foldl (fun trks m =>
          match trks.get? m.2, ds.get? m.1 with
          | some t, some det => trks.set m.2 (t.update det.bbox det.confidence)
          | _, _ => trks) (pt.tracks.map Track.predict)), pt.next_id)
  refine ⟨hsp.2.1, ?_, ?_⟩
  · intro t ht
    rcases hsp.2.2 t ht with h | h
    · left
      have : t.id ∈ pt.tracks.map (fun t => t.id) := by
        rw [← hids2]
        exact List.mem_map_of_mem _ h
      exact this
    · exact Or.inr h
  · intro hInv
    refine hsp.1 ?_ ?_
    · rw [hids2]
      exact hInv.1
    · intro t ht
      have hmem : t.id ∈ pt.tracks.map (fun t => t.id) := by
        rw [← hids2]
        exact List.mem_map_of_mem _ ht
      obtain ⟨t0, ht0, hid⟩ := List.mem_map.mp hmem
      exact hid ▸ hInv.2 t0 ht0

theorem update_state_spec (pt : PersonTracker) (ds : List Detection) :
    (pt.update ds).2.next_id = (pt.preEvict ds).2.1
    ∧ (pt.update ds).2.tracks
        = (pt.preEvict ds).1.filter (fun t => decide (t.time_since_update ≤ pt.max_age))
    ∧ (pt.update ds).2.max_age = pt.max_age
    ∧ (pt.update ds).2.min_hits = pt.min_hits
    ∧ (pt.update ds).1 = reportList (pt.preEvict ds).2.2
        ((pt.preEvict ds).1.filter (fun t => decide (t.time_since_update ≤ pt.max_age)))
        pt.min_hits ds.enum := by
  unfold PersonTracker.update
  exact ⟨rfl, rfl, rfl, rfl, rfl⟩

theorem update_inv (pt : PersonTracker) (ds : List Detection) :
    (TrackerInv pt → TrackerInv (pt.update ds).2)
    ∧ pt.next_id ≤ (pt.update ds).2.next_id
    ∧ (∀ t ∈ (pt.update ds).2.tracks, t.id ∈ trackIds pt ∨ pt.next_id ≤ t.id)
    ∧ (∀ t ∈ (pt.update ds).2.tracks, t.time_since_update ≤ pt.max_age) := by
  obtain ⟨hn, hmem, hinvf⟩ := preEvict_spec pt ds
  obtain ⟨e1, e2, _, _, _⟩ := update_state_spec pt ds
  refine ⟨?_, ?_, ?_, ?_⟩
  · intro h
    obtain ⟨hp, hb⟩ := hinvf h
    constructor
    · show List.Pairwise _ ((pt.update ds).2.tracks.map (fun t => t.id))
      rw [e2]
      exact List.Pairwise.sublist (List.Sublist.map _ (List.filter_sublist _)) hp
    · intro t ht
      rw [e2] at ht
      rw [e1]
      exact hb t (List.mem_of_mem_filter ht)
  · rw [e1]
    exact hn
  · intro t ht
    rw [e2] at ht
    exact hmem t (List.mem_of_mem_filter ht)
  · intro t ht
    rw [e2] at ht
    exact of_decide_eq_true (List.mem_filter.mp ht).2

theorem run_spec : ∀ (dss : List (List Detection)) (pt : PersonTracker),
    (TrackerInv pt → TrackerInv (pt.run dss))
    ∧ pt.next_id ≤ (pt.run dss).next_id
    ∧ (∀ i, i < pt.next_id → i ∉ trackIds pt → i ∉ trackIds (pt.run dss))
  | [], pt => ⟨fun h => h, le_refl _, fun _ _ h2 => h2⟩
  | ds :: dss, pt => by
      have hu := update_inv pt ds
      have ih := run_spec dss (pt.update ds).2
      show (TrackerInv pt → TrackerInv (((pt.update ds).2).run dss)) ∧ _ ∧ _
      refine ⟨fun h => ih.1 (hu.1 h), le_trans hu.2.1 ih.2.1, ?_⟩
      intro i h1 h2
      refine ih.2.2 i (lt_of_lt_of_le h1 hu.2.1) ?_
      intro hmemb
      obtain ⟨t, ht, hid⟩ := List.mem_map.mp hmemb
      rcases hu.2.2.1 t ht with h | h
      · exact h2 (hid ▸ h)
      · rw [hid] at h
        exact absurd h1 (not_lt.mpr h)

theorem get?_id_inj {tracks : List Track} (hids : (tracks.map (fun t => t.id)).Nodup)
    {a b : Nat} {t t' : Track} (ha : tracks.get? a = some t) (hb : tracks.get? b = some t')
    (hid : t.id = t'.id) : a = b := by
  have hma : (tracks.map (fun t => t.id)).get? a = some t.id := by
    rw [List.get?_map, ha]
    rfl
  have hmb : (tracks.map (fun t => t.id)).get? b = some t'.id := by
    rw [List.get?_map, hb]
    rfl
  have hlen : a < (tracks.map (fun t => t.id)).length := by
    by_contra hc
    rw [List.get?_eq_none.mpr (not_lt.mp hc)] at hma
    simp at hma
  exact List.get?_inj hlen hids (hma.trans (hid ▸ hmb).symm)

theorem reportOne_cases {det : Detection} {i : Nat} {matched : List (Nat × Nat)}
    {tracks : List Track} {min_hits : Nat} {lst : List TrackedDet}
    (h : reportOne det i matched tracks min_hits = some lst) :
    lst = [] ∨ ∃ m tr track,
      matched.find? (fun m => decide (m.1 = i)) = some m
      ∧ tracks.get? m.2 = some tr
      ∧ get_track_by_id tracks tr.id = some track
      ∧ min_hits ≤ track.hits
      ∧ lst = [{ person_id := tr.id, bbox := track.bbox
                 confidence := det.confidence }] := by
  unfold reportOne at h
  split at h
  next hf =>
    left
    exact (Option.some.inj h).symm
  next m hf =>
    split at h
    next hg =>
      exact absurd h (by simp)
    next tr hg =>
      split at h
      next track ht =>
        split at h
        next hh =>
          right
          exact ⟨m, tr, track, hf, hg, ht, hh, (Option.some.inj h).symm⟩
        next hh =>
          left
          exact (Option.some.inj h).symm
      next ht =>
        left
        exact (Option.some.inj h).symm

theorem reportList_mem {matched : List (Nat × Nat)} {tracks : List Track}
    {min_hits : Nat} :
    ∀ {l : List (Nat × Detection)} {out : List TrackedDet},
      reportList matched tracks min_hits l = some out →
      ∀ p ∈ out, ∃ e ∈ l, ∃ lst,
        reportOne e.2 e.1 matched tracks min_hits = some lst ∧ p ∈ lst
  | [], out, h, p, hp => by
      unfold reportList at h
      cases Option.some.inj h
      simp at hp
  | (i, det) :: rest, out, h, p, hp => by
      unfold reportList at h
      cases h1 : reportOne det i matched tracks min_hits with
      | none =>
          rw [h1] at h
          exact absurd h (by simp)
      | some add =>
          rw [h1] at h
          cases h2 : reportList matched tracks min_hits rest with
          | none =>
              rw [h2] at h
              exact absurd h (by simp)
          | some o2 =>
              rw [h2] at h
              cases Option.some.inj h
              rcases List.mem_append.mp hp with hp1 | hp2
              · exact ⟨(i, det), List.mem_cons_self _ _, add, h1, hp1⟩
              · obtain ⟨e, he, lst, hlst, hplst⟩ := reportList_mem h2 p hp2
                exact ⟨e, List.mem_cons_of_mem _ he, lst, hlst, hplst⟩

theorem reportList_nodup {matched : List (Nat × Nat)} {tracks : List Track}
    {min_hits : Nat}
    (hfst : (matched.map Prod.fst).Nodup)
    (hsnd : (matched.map Prod.snd).Nodup)
    (hids : (tracks.map (fun t => t.id)).Nodup) :
    ∀ {l : List (Nat × Detection)} {out : List TrackedDet},
      (l.map Prod.fst).Nodup →
      reportList matched tracks min_hits l = some out →
      (out.map (fun p => p.person_id)).Nodup
  | [], out, _, h => by
      cases Option.some.inj h
      exact List.nodup_nil
  | (i, det) :: rest, out, hl, h => by
      unfold reportList at h
      cases h1 : reportOne det i matched tracks min_hits with
      | none =>
          rw [h1] at h
          exact absurd h (by simp)
      | some add =>
          rw [h1] at h
          cases h2 : reportList matched tracks min_hits rest with
          | none =>
              rw [h2] at h
              exact absurd h (by simp)
          | some o2 =>
              rw [h2] at h
              cases Option.some.inj h
              have hrest : (rest.map Prod.fst).Nodup := (List.nodup_cons.mp hl).2
              have hio : (i : Nat) ∉ rest.map Prod.fst := (List.nodup_cons.mp hl).1
              have ih := reportList_nodup hfst hsnd hids hrest h2
              rcases reportOne_cases h1 with rfl | ⟨m, tr, track, hfm, hgm, _, _, rfl⟩
              · simpa using ih
              · rw [List.map_append]
                simp only [List.map_cons, List.map_nil]
                rw [List.singleton_append]
                refine List.nodup_cons.mpr ⟨?_, ih⟩
                intro hin
                obtain ⟨q, hq, hqid⟩ := List.mem_map.mp hin
                obtain ⟨e, he, lst, hlst, hplst⟩ := reportList_mem h2 q hq
                rcases reportOne_cases hlst with rfl | ⟨m', tr', track', hfm', hgm', _, _, rfl⟩
                · simp at hplst
                · rw [List.mem_singleton] at hplst
                  subst hplst
                  have hm1 : m.1 = i :=
                    of_decide_eq_true
                      (@List.find?_some _ (fun x => decide (x.1 = i)) m matched hfm)
                  have hm'1 : m'.1 = e.1 :=
                    of_decide_eq_true
                      (@List.find?_some _ (fun x => decide (x.1 = e.1)) m' matched hfm')
                  have hidz : tr'.id = tr.id := hqid
                  have hm2 : m.2 = m'.2 := get?_id_inj hids hgm hgm' hidz.symm
                  have hmm : m = m' :=
                    List.inj_on_of_nodup_map hsnd
                      (List.mem_of_find?_eq_some hfm)
                      (List.mem_of_find?_eq_some hfm') hm2
                  have he1 : e.1 ∈ rest.map Prod.fst := List.mem_map_of_mem _ he
                  rw [← hm'1, ← hmm, hm1] at he1
                  exact hio he1

theorem assoc_post (thr : ℚ) (iouM : Nat → Nat → ℚ) (MI : List (Nat × Nat))
    (hf : (MI.map Prod.fst).Nodup) (hs : (MI.map Prod.snd).Nodup) (nd : Nat) :
    ((MI.filter (fun m => decide (¬ iouM m.1 m.2 < thr))).map Prod.fst).Nodup
    ∧ ((MI.filter (fun m => decide (¬ iouM m.1 m.2 < thr))).map Prod.snd).Nodup
    ∧ ∀ i ∈ ((List.range nd).filter (fun d => decide (d ∉ MI.map Prod.fst))
          ++ (MI.filter (fun m => decide (iouM m.1 m.2 < thr))).map Prod.fst),
        (MI.filter (fun m => decide (¬ iouM m.1 m.2 < thr))).find?
          (fun m => decide (m.1 = i)) = none := by
  refine ⟨List.Nodup.sublist (List.Sublist.map _ (List.filter_sublist _)) hf,
          List.Nodup.sublist (List.Sublist.map _ (List.filter_sublist _)) hs, ?_⟩
  intro i hi
  rw [List.find?_eq_none]
  intro mm hmm hdec
  obtain ⟨hmmMI, hmmP⟩ := List.mem_filter.mp hmm
  have hm1 : mm.1 = i := of_decide_eq_true hdec
  rcases List.mem_append.mp hi with hA | hL
  · obtain ⟨_, hiP⟩ := List.mem_filter.mp hA
    exact (of_decide_eq_true hiP) (hm1 ▸ List.mem_map_of_mem Prod.fst hmmMI)
  · obtain ⟨m0, hm0, rfl⟩ := List.mem_map.mp hL
    obtain ⟨hm0MI, hm0P⟩ := List.mem_filter.mp hm0
    have heq : mm = m0 := List.inj_on_of_nodup_map hf hmmMI hm0MI hm1
    rw [heq] at hmmP
    exact (of_decide_eq_true hmmP) (of_decide_eq_true hm0P)

theorem associate_spec (pt : PersonTracker) (ds : List Detection) :
    ((pt.associate_detections ds).1.map Prod.fst).Nodup
    ∧ ((pt.associate_detections ds).1.map Prod.snd).Nodup
    ∧ ∀ i ∈ (pt.associate_detections ds).2.1,
        (pt.associate_detections ds).1.find? (fun m => decide (m.1 = i)) = none := by
  unfold PersonTracker.associate_detections
  by_cases h0 : pt.tracks.length = 0
  · rw [if_pos h0]
    exact ⟨List.nodup_nil, List.nodup_nil, fun i _ => rfl⟩
  · rw [if_neg h0]
    dsimp only
    by_cases hprod : 0 < ds.length * pt.tracks.length
    · rw [if_pos hprod]
      obtain ⟨hf, hs, _⟩ := linear_sum_assignment_spec
        (fun d t => 1 - iou ((ds.get? d).getD dummyDetection).bbox
          ((pt.tracks.get? t).getD dummyTrack).bbox) ds.length pt.tracks.length
      exact assoc_post pt.iou_threshold
        (fun d t => iou ((ds.get? d).getD dummyDetection).bbox
          ((pt.tracks.get? t).getD dummyTrack).bbox)
        (linear_sum_assignment
          (fun d t => 1 - iou ((ds.get? d).getD dummyDetection).bbox
            ((pt.tracks.get? t).getD dummyTrack).bbox) ds.length pt.tracks.length)
        hf hs ds.length
    · rw [if_neg hprod]
      exact assoc_post pt.iou_threshold
        (fun d t => iou ((ds.get? d).getD dummyDetection).bbox
          ((pt.tracks.get? t).getD dummyTrack).bbox)
        [] List.nodup_nil List.nodup_nil ds.length

theorem preEvict_matched (pt : PersonTracker) (ds : List Detection) :
    (pt.preEvict ds).2.2
      = (({ pt with tracks := pt.tracks.map Track.predict } :
          PersonTracker).associate_detections ds).1 := by
  unfold PersonTracker.preEvict
  rfl

/-- Every reported person corresponds to a live track bearing its id with
at least `min_hits` hits. -/
theorem update_output_mem (pt : PersonTracker) (ds : List Detection)
    {out : List TrackedDet} (hout : (pt.update ds).1 = some out) :
    ∀ p ∈ out, ∃ track ∈ (pt.update ds).2.tracks,
      track.id = p.person_id ∧ pt.min_hits ≤ track.hits := by
  obtain ⟨_, e2, _, _, e5⟩ := update_state_spec pt ds
  rw [e5] at hout
  intro p hp
  obtain ⟨e, _, lst, hlst, hplst⟩ := reportList_mem hout p hp
  rcases reportOne_cases hlst with rfl | ⟨m, tr, track, _, _, ht, hh, rfl⟩
  · simp at hplst
  · rw [List.mem_singleton] at hplst
    subst hplst
    have ht' : List.find? (fun t => decide (t.id = tr.id))
        ((pt.preEvict ds).1.filter
          (fun t => decide (t.time_since_update ≤ pt.max_age))) = some track := ht
    have htrmem : track ∈ (pt.preEvict ds).1.filter
        (fun t => decide (t.time_since_update ≤ pt.max_age)) :=
      List.mem_of_find?_eq_some ht'
    have htrid : track.id = tr.id :=
      of_decide_eq_true (@List.find?_some _ (fun t => decide (t.id = tr.id)) track _ ht')
    refine ⟨track, ?_, htrid, hh⟩
    rw [e2]
    exact htrmem

/-- Detections `dW` and states of the C4 scenario: one person detected at
the same place on three consecutive frames, tracker `min_hits = 3`. -/
def dW : Detection := { bbox := ⟨0, 0, 100, 100⟩, confidence := 9/10 }

def sW0 : PersonTracker := mkPersonTracker 30 3 (3/10)

def sW1 : PersonTracker := (sW0.update [dW]).2

def sW2 : PersonTracker := (sW1.update [dW]).2

set_option maxRecDepth 100000 in
unseal Rat.mul Rat.inv Rat.add Rat.sub in
/-- C4: a track id is reported only while its track's `hits` is at least
`min_hits` (first conjunct); a detection that spawns a new track is one of
the unmatched detections, for which the accepted-match list holds no pair,
so the report loop emits nothing for it (second conjunct); and in the
concrete `min_hits = 3` scenario the person first appears in the output of
the third call (remaining conjuncts). -/
theorem confirmation_latency_spec :
    (∀ (pt : PersonTracker) (ds : List Detection) (out : List TrackedDet),
      (pt.update ds).1 = some out →
      ∀ p ∈ out, ∃ track ∈ (pt.update ds).2.tracks,
        track.id = p.person_id ∧ pt.min_hits ≤ track.hits)
    ∧ (∀ (pt : PersonTracker) (ds : List Detection),
        ∀ i ∈ (pt.associate_detections ds).2.1,
          (pt.associate_detections ds).1.find? (fun m => decide (m.1 = i)) = none)
    ∧ ((sW0.update [dW]).1).map (List.map (fun p => p.person_id)) = some []
    ∧ ((sW1.update [dW]).1).map (List.map (fun p => p.person_id)) = some []
    ∧ ((sW2.update [dW]).1).map (List.map (fun p => p.person_id)) = some [0] := by
  refine ⟨fun pt ds out hout => update_output_mem pt ds hout,
    fun pt ds => (associate_spec pt ds).2.2, by decide, by decide, by decide⟩

set_option maxRecDepth 100000 in
unseal Rat.mul Rat.inv Rat.add Rat.sub in
/-- Witness for C4: the third call reports person 0, whose track has 3 hits;
the spawning call's unmatched detection has no accepted match to report. -/
theorem confirmation_latency_spec_witness :
    ((sW2.update [dW]).1
      = some [{ person_id := 0, bbox := ⟨0, 0, 100, 100⟩, confidence := 9/10 }])
    ∧ (∃ track ∈ (sW2.update [dW]).2.tracks, track.id = 0 ∧ sW2.min_hits ≤ track.hits)
    ∧ (sW0.associate_detections [dW]).1.find? (fun m => decide (m.1 = 0)) = none := by
  have h1 : (sW2.update [dW]).1
      = some [{ person_id := 0, bbox := ⟨0, 0, 100, 100⟩, confidence := 9/10 }] := by
    decide
  refine ⟨h1, ?_, ?_⟩
  · exact confirmation_latency_spec.1 sW2 [dW] _ h1 _ (List.mem_singleton.mpr rfl)
  · exact confirmation_latency_spec.2.1 sW0 [dW] 0 (by decide)

/-- C5: after any `update` call every surviving track is within `max_age`
(first conjunct: the over-age track was removed during the call); the id of
a track that was over age at the eviction check is absent from the
post-call track list (second conjunct) and every output draws its ids from
that list (third conjunct); an id that has been assigned and is gone never
reappears in any later state (fourth conjunct) nor in any later output
(fifth conjunct). -/
theorem eviction_spec (pt : PersonTracker) (ds : List Detection)
    (hInv : TrackerInv pt) :
    (∀ t ∈ (pt.update ds).2.tracks, t.time_since_update ≤ pt.max_age)
    ∧ (∀ τ, (∃ t ∈ (pt.preEvict ds).1, t.id = τ ∧ pt.max_age < t.time_since_update) →
        τ ∉ trackIds (pt.update ds).2)
    ∧ (∀ out, (pt.update ds).1 = some out →
        ∀ p ∈ out, p.person_id ∈ trackIds (pt.update ds).2)
    ∧ (∀ i, i < pt.next_id → i ∉ trackIds pt → ∀ dss, i ∉ trackIds (pt.run dss))
    ∧ (∀ i, i < pt.next_id → i ∉ trackIds pt →
        ∀ dss ds2 out, ((pt.run dss).update ds2).1 = some out →
          ∀ p ∈ out, p.person_id ≠ i) := by
  obtain ⟨_, e2, _, _, _⟩ := update_state_spec pt ds
  refine ⟨(update_inv pt ds).2.2.2, ?_, ?_, ?_, ?_⟩
  · rintro τ ⟨t, htmem, rfl, htage⟩ hids
    obtain ⟨t', ht'mem, ht'id⟩ := List.mem_map.mp hids
    rw [e2] at ht'mem
    obtain ⟨ht'pre, ht'p⟩ := List.mem_filter.mp ht'mem
    have hpair := ((preEvict_spec pt ds).2.2 hInv).1
    have hnd : ((pt.preEvict ds).1.map (fun t => t.id)).Nodup :=
      hpair.imp (fun h => ne_of_lt h)
    have : t' = t := List.inj_on_of_nodup_map hnd ht'pre htmem ht'id
    subst this
    exact absurd (of_decide_eq_true ht'p) (not_le.mpr htage)
  · intro out hout p hp
    obtain ⟨track, htrk, hid, _⟩ := update_output_mem pt ds hout p hp
    exact hid ▸ List.mem_map_of_mem _ htrk
  · intro i h1 h2 dss
    exact (run_spec dss pt).2.2 i h1 h2
  · intro i h1 h2 dss ds2 out hout p hp hpi
    have hnot : i ∉ trackIds (pt.run dss) := (run_spec dss pt).2.2 i h1 h2
    have hlt : i < (pt.run dss).next_id := lt_of_lt_of_le h1 (run_spec dss pt).2.1
    have hnot2 : i ∉ trackIds ((pt.run dss).update ds2).2 := by
      intro hmem
      obtain ⟨t, ht, hid⟩ := List.mem_map.mp hmem
      rcases (update_inv (pt.run dss) ds2).2.2.1 t ht with h | h
      · exact hnot (hid ▸ h)
      · rw [hid] at h
        exact absurd hlt (not_lt.mpr h)
    obtain ⟨track, htrk, hid, _⟩ := update_output_mem (pt.run dss) ds2 hout p hp
    exact hnot2 (by rw [← hpi, ← hid]; exact List.mem_map_of_mem _ htrk)

/-- States of the C5 eviction scenario: `max_age = 0`, a track spawned on
frame 1 and evicted on the empty frame 2. -/
def eW0 : PersonTracker := mkPersonTracker 0 3 (3/10)

def eW1 : PersonTracker := (eW0.update [dW]).2

set_option maxRecDepth 100000 in
unseal Rat.mul Rat.inv Rat.add Rat.sub in
/-- Witness for C5: track 0 exceeds `max_age = 0` at frame 2's eviction
check, disappears from the live list, and never returns over two further
frames with detections. -/
theorem eviction_spec_witness :
    TrackerInv eW1
    ∧ (∃ t ∈ (eW1.preEvict []).1, t.id = 0 ∧ eW1.max_age < t.time_since_update)
    ∧ (0 : Nat) ∉ trackIds (eW1.update []).2
    ∧ (0 : Nat) ∉ trackIds ((eW1.update []).2.run [[dW], [dW]]) := by
  have hInv : TrackerInv eW1 := ⟨by decide, by decide⟩
  have hex : ∃ t ∈ (eW1.preEvict []).1, t.id = 0 ∧ eW1.max_age < t.time_since_update := by
    decide
  refine ⟨hInv, hex, (eviction_spec eW1 [] hInv).2.1 0 hex, ?_⟩
  exact (eviction_spec (eW1.update []).2 [] ⟨by decide, by decide⟩).2.2.2.1 0 (by decide)
    (by decide) [[dW], [dW]]

/-- C3: along any run from a fresh tracker, live track ids are pairwise
distinct, strictly increasing in creation order, all below the id counter,
and an id that has been assigned (is below the counter) but is no longer
live — in particular an evicted id — is never carried by any track in any
continuation of the run. -/
theorem track_id_uniqueness_spec (max_age min_hits : Nat) (thr : ℚ)
    (dss : List (List Detection)) :
    (trackIds ((mkPersonTracker max_age min_hits thr).run dss)).Nodup
    ∧ List.Pairwise (· < ·) (trackIds ((mkPersonTracker max_age min_hits thr).run dss))
    ∧ (∀ t ∈ ((mkPersonTracker max_age min_hits thr).run dss).tracks,
        t.id < ((mkPersonTracker max_age min_hits thr).run dss).next_id)
    ∧ ∀ i, i < ((mkPersonTracker max_age min_hits thr).run dss).next_id →
        i ∉ trackIds ((mkPersonTracker max_age min_hits thr).run dss) →
        ∀ dss2, i ∉ trackIds (((mkPersonTracker max_age min_hits thr).run dss).run dss2) := by
  have h0 : TrackerInv (mkPersonTracker max_age min_hits thr) :=
    ⟨List.Pairwise.nil, fun t ht => absurd ht (List.not_mem_nil t)⟩
  have hr := run_spec dss (mkPersonTracker max_age min_hits thr)
  have hInv := hr.1 h0
  exact ⟨hInv.1.imp (fun h => ne_of_lt h), hInv.1, hInv.2,
    fun i h1 h2 dss2 => (run_spec dss2 _).2.2 i h1 h2⟩

def dC3 : Detection := { bbox := ⟨10, 10, 110, 110⟩, confidence := 4/5 }

set_option maxRecDepth 100000 in
unseal Rat.mul Rat.inv Rat.add Rat.sub in
/-- Witness for C3: id 0 is assigned on frame 1 and evicted on frame 2
(`max_age = 0`); it never reappears when the run continues. -/
theorem track_id_uniqueness_spec_witness :
    (0 : Nat) ∉ trackIds (((mkPersonTracker 0 3 (3/10)).run [[dC3], []]).run [[dC3]]) := by
  exact (track_id_uniqueness_spec 0 3 (3/10) [[dC3], []]).2.2.2 0 (by decide) (by decide)
    [[dC3]]

/-- C10: the person ids of one `update` call's returned list are pairwise
distinct (each entry stems from a distinct accepted detection-to-track
match), so id-keyed consumers see at most one observation per id per tick. -/
theorem output_person_ids_nodup (pt : PersonTracker) (ds : List Detection)
    (hInv : TrackerInv pt) (out : List TrackedDet)
    (hout : (pt.update ds).1 = some out) :
    (out.map (fun p => p.person_id)).Nodup := by
  obtain ⟨_, e2, _, _, e5⟩ := update_state_spec pt ds
  obtain ⟨haf, has, _⟩ := associate_spec
    ({ pt with tracks := pt.tracks.map Track.predict }) ds
  have hids : ((pt.update ds).2.tracks.map (fun t => t.id)).Nodup :=
    ((update_inv pt ds).1 hInv).1.imp (fun h => ne_of_lt h)
  rw [e5, preEvict_matched] at hout
  have henum : (ds.enum.map Prod.fst).Nodup := by
    rw [List.enum_map_fst]
    exact List.nodup_range _
  refine reportList_nodup haf has ?_ henum hout
  rw [← e2]
  exact hids

/-- Detections and states of the C10 scenario: two people far apart,
`min_hits = 1`, both confirmed and reported on frame 2. -/
def dA : Detection := { bbox := ⟨0, 0, 100, 100⟩, confidence := 9/10 }

def dB : Detection := { bbox := ⟨500, 500, 600, 600⟩, confidence := 8/10 }

def nW1 : PersonTracker := ((mkPersonTracker 30 1 (3/10)).update [dA, dB]).2

set_option maxRecDepth 100000 in
unseal Rat.mul Rat.inv Rat.add Rat.sub in
/-- Witness for C10: frame 2 reports persons 0 and 1 — distinct ids. -/
theorem output_person_ids_nodup_witness :
    TrackerInv nW1
    ∧ (nW1.update [dA, dB]).1
        = some [{ person_id := 0, bbox := ⟨0, 0, 100, 100⟩, confidence := 9/10 },
                { person_id := 1, bbox := ⟨500, 500, 600, 600⟩, confidence := 8/10 }]
    ∧ (([{ person_id := 0, bbox := ⟨0, 0, 100, 100⟩, confidence := 9/10 },
         { person_id := 1, bbox := ⟨500, 500, 600, 600⟩, confidence := 8/10 }] :
        List TrackedDet).map (fun p => p.person_id)).Nodup := by
  have hInv : TrackerInv nW1 := ⟨by decide, by decide⟩
  have hout : (nW1.update [dA, dB]).1
      = some [{ person_id := 0, bbox := ⟨0, 0, 100, 100⟩, confidence := 9/10 },
              { person_id := 1, bbox := ⟨500, 500, 600, 600⟩, confidence := 8/10 }] := by
    decide
  exact ⟨hInv, hout, output_person_ids_nodup nW1 [dA, dB] hInv _ hout⟩

end PPE
